import Mathlib

/-!
# Verification of the LinoSPAD2 unpack pipeline (`tools/unpack_data.py`)

Shallow embedding of the binary decode / reshape / calibration-correction
pipeline of `tools/unpack_data.py`:

* `decodeWord`, `decodeLoop` — the per-word decode of `unpack_binary_flex`
  (lines 54–72): read 32-bit little-endian words, test the validity bit
  (bit 31), mask the low 28 bits and scale by the 17.857 ps bin width,
  emitting `-1` for invalid words.
* `numpyDecodeWord`, `numpyDecode` — the vectorised decode of
  `unpack_numpy` / `unpack_calib` (lines 96–98 and 133–137).
* `readWords` / `fromfileWords` — byte-stream to word-stream assembly:
  the `struct.unpack` loop of `unpack_binary_flex` (which raises on a
  trailing partial word, modelled with `Option`) versus `np.fromfile`
  (which silently drops trailing bytes that do not fill a word).
* `writeRow`, `innerPass`, `packMatrix` — the explicit nested-index
  reshape loop of `unpack_binary_flex` (lines 74–92).
* `reshapeF2` … `unpackNumpyReshape` — the Fortran-order
  reshape/transpose chain of `unpack_numpy` (lines 100–106).
* `applyCalib`, `unpackCalibReshape`, `unpack_calib_load` — the
  C-order reshape, calibration lookup and in-place correction of
  `unpack_calib` (lines 133–163).
* `nocQ`, `flexLoop` — the `while k != noc` cycle loop of
  `unpack_binary_flex` (lines 76–91) with its real-valued exit bound.

Modelling conventions: Python/NumPy floats are modelled as exact
rationals (`ℚ`); the literal `17.857` becomes `17857/1000`.  NumPy
`int64`/`longlong` entries are modelled as `ℤ`, and the implicit cast of
a float expression assigned into an integer array is the
truncation-toward-zero `truncQ`.  Machine words are `ℕ` with explicit
bit operations; fallible operations return `Option`.
-/

namespace LinoSPAD2

/-! ## PacketDecoder (lines 54–72, 96–98) -/

/-- The calibration constant `17.857` ps (average TDC bin width,
2.5 ns / 140 bins), line 66 of the source, as an exact rational. -/
def binWidth : ℚ := 17857 / 1000

/-- Decode of one 32-bit word in `unpack_binary_flex` (lines 60–68):
`if (packet[0] >> 31) == 1: timestamp = (packet[0] & 0xFFFFFFF) * 17.857
else: timestamp = -1`. -/
def decodeWord (w : ℕ) : ℚ :=
  if w >>> 31 = 1 then ((w &&& 0xFFFFFFF : ℕ) : ℚ) * binWidth else -1

/-- The word-reading loop of `unpack_binary_flex` (lines 55–69): one
decoded timestamp appended per word, in input order. -/
def decodeLoop : List ℕ → List ℚ
  | [] => []
  | w :: ws => decodeWord w :: decodeLoop ws

/-- Vectorised decode of one word in `unpack_numpy` (lines 97–98):
`data = (rawFile & 0xFFFFFFF) * 17.857; data[rawFile < 0x80000000] = -1`. -/
def numpyDecodeWord (w : ℕ) : ℚ :=
  if w < 0x80000000 then -1 else ((w &&& 0xFFFFFFF : ℕ) : ℚ) * binWidth

/-- Elementwise decode of `unpack_numpy` over the whole word array. -/
def numpyDecode (ws : List ℕ) : List ℚ := ws.map numpyDecodeWord

/-- The address field extracted on line 70:
`address = (packet[0] >> 28) & 0x3`. -/
def addressField (w : ℕ) : ℕ := (w >>> 28) &&& 0x3

lemma decodeLoop_length (ws : List ℕ) : (decodeLoop ws).length = ws.length := by
  induction ws with
  | nil => rfl
  | cons w ws ih => simp [decodeLoop, ih]

lemma decodeLoop_getD (ws : List ℕ) (n : ℕ) (hn : n < ws.length) :
    (decodeLoop ws).getD n 0 = decodeWord (ws.getD n 0) := by
  induction ws generalizing n with
  | nil => simp at hn
  | cons w ws ih =>
    cases n with
    | zero => rfl
    | succ n =>
      simp only [decodeLoop, List.getD_cons_succ]
      exact ih n (by simpa using hn)

lemma shiftRight31_eq_one_iff (w : ℕ) (hw : w < 2 ^ 32) :
    (w >>> 31 = 1) ↔ 2 ^ 31 ≤ w := by
  rw [Nat.shiftRight_eq_div_pow]
  have h31 : (2 : ℕ) ^ 31 = 2147483648 := by norm_num
  have h32 : (2 : ℕ) ^ 32 = 4294967296 := by norm_num
  rw [h31] at *
  rw [h32] at hw
  omega

lemma mask28_eq_mod (w : ℕ) : w &&& 0xFFFFFFF = w % 2 ^ 28 := by
  have h : (0xFFFFFFF : ℕ) = 2 ^ 28 - 1 := by norm_num
  rw [h, Nat.and_pow_two_sub_one_eq_mod]

lemma decodeWord_spec (w : ℕ) (hw : w < 2 ^ 32) :
    decodeWord w = if 2 ^ 31 ≤ w then ((w % 2 ^ 28 : ℕ) : ℚ) * binWidth else -1 := by
  unfold decodeWord
  rw [mask28_eq_mod]
  by_cases h : 2 ^ 31 ≤ w
  · rw [if_pos ((shiftRight31_eq_one_iff w hw).mpr h), if_pos h]
  · rw [if_neg (fun hc => h ((shiftRight31_eq_one_iff w hw).mp hc)), if_neg h]

lemma decodeWord_eq_numpyDecodeWord (w : ℕ) (hw : w < 2 ^ 32) :
    decodeWord w = numpyDecodeWord w := by
  unfold numpyDecodeWord
  rw [decodeWord_spec w hw, mask28_eq_mod]
  have h : (0x80000000 : ℕ) = 2 ^ 31 := by norm_num
  rw [h]
  by_cases hc : 2 ^ 31 ≤ w
  · rw [if_pos hc, if_neg (by omega)]
  · rw [if_neg hc, if_pos (by omega)]

/-- C3: every 32-bit word yields exactly one decoded value, in input
order; a word with most-significant bit 0 decodes to `-1` regardless of
its other 31 bits, and a word with most-significant bit 1 decodes to
`(word & 0x0FFFFFFF) * 17.857`. -/
theorem C3_packet_decoder (ws : List ℕ) (hw : ∀ w ∈ ws, w < 2 ^ 32) :
    (decodeLoop ws).length = ws.length ∧
    ∀ n, n < ws.length →
      (decodeLoop ws).getD n 0 =
        if 2 ^ 31 ≤ ws.getD n 0
        then ((ws.getD n 0 % 2 ^ 28 : ℕ) : ℚ) * binWidth
        else -1 := by
  refine ⟨decodeLoop_length ws, fun n hn => ?_⟩
  rw [decodeLoop_getD ws n hn]
  have hmem : ws.getD n 0 ∈ ws := by
    rw [List.getD_eq_getElem?_getD, List.getElem?_eq_getElem hn]
    exact List.getElem_mem hn
  exact decodeWord_spec _ (hw _ hmem)

/-- Witness for C3 at a concrete two-word stream: an invalid word
`0x7FFFFFFF` (MSB 0) decodes to `-1`, a valid word `0x80000001` decodes
to `1 * 17.857`. -/
theorem C3_packet_decoder_witness :
    (decodeLoop [0x7FFFFFFF, 0x80000001]).length = 2 ∧
    (decodeLoop [0x7FFFFFFF, 0x80000001]).getD 0 0 = -1 ∧
    (decodeLoop [0x7FFFFFFF, 0x80000001]).getD 1 0 = binWidth := by
  have h := C3_packet_decoder [0x7FFFFFFF, 0x80000001] (by decide)
  refine ⟨h.1, ?_, ?_⟩
  · rw [h.2 0 (by decide)]; norm_num
  · rw [h.2 1 (by decide)]; norm_num

/-! ## Byte stream to 32-bit words (lines 54–59 vs lines 96, 133) -/

/-- The per-word read loop (f.read(4) followed by a struct unpack of
one little-endian u32) of
`unpack_binary_flex` (lines 54–59): bytes are consumed four at a time,
assembled little-endian; a nonempty trailing chunk of fewer than four
bytes makes `struct.unpack` raise (`struct.error`), modelled as `none`. -/
def readWords : List ℕ → Option (List ℕ)
  | [] => some []
  | b0 :: b1 :: b2 :: b3 :: rest =>
      (readWords rest).map
        (fun ws => (b0 + 256 * b1 + 65536 * b2 + 16777216 * b3) :: ws)
  | _ => none

/-- Model of np.fromfile with dtype uint32 (line 96 of `unpack_numpy`
and line 133 of `unpack_calib`): reads as many complete little-endian
32-bit words as fit and silently drops any trailing partial word. -/
def fromfileWords : List ℕ → List ℕ
  | b0 :: b1 :: b2 :: b3 :: rest =>
      (b0 + 256 * b1 + 65536 * b2 + 16777216 * b3) :: fromfileWords rest
  | _ => []

theorem readWords_eq_none : ∀ bs : List ℕ, bs.length % 4 ≠ 0 → readWords bs = none
  | [], h => absurd rfl h
  | [_], _ => rfl
  | [_, _], _ => rfl
  | [_, _, _], _ => rfl
  | _ :: _ :: _ :: _ :: rest, h => by
      have h4 : rest.length % 4 ≠ 0 := by
        simp only [List.length_cons] at h ⊢
        omega
      simp [readWords, readWords_eq_none rest h4]

theorem fromfileWords_length : ∀ bs : List ℕ, (fromfileWords bs).length = bs.length / 4
  | [] => rfl
  | [_] => by simp [fromfileWords]
  | [_, _] => by simp [fromfileWords]
  | [_, _, _] => by simp [fromfileWords]
  | _ :: _ :: _ :: _ :: rest => by
      simp only [fromfileWords, List.length_cons, fromfileWords_length rest]
      omega

theorem readWords_eq_some : ∀ bs : List ℕ, bs.length % 4 = 0 →
    readWords bs = some (fromfileWords bs)
  | [], _ => rfl
  | [_], h => by simp at h
  | [_, _], h => by simp at h
  | [_, _, _], h => by simp at h
  | _ :: _ :: _ :: _ :: rest, h => by
      have h4 : rest.length % 4 = 0 := by
        simp only [List.length_cons] at h ⊢
        omega
      simp [readWords, fromfileWords, readWords_eq_some rest h4]

/-! ## CycleReshaper: the explicit nested-index loop (lines 74–92) -/

/-- Allocation of the output matrix with np.zeros of shape
(256, int(len(timestamp_list) / 256)) on line 74: the freshly allocated matrix holds `0` in every cell. -/
def initMatrix : ℕ → ℕ → ℚ := fun _ _ => 0

/-- NumPy row-slice assignment `m[i][start : start + len(vs)] = vs`
(lines 84–89), for an in-bounds slice. -/
def writeRow (m : ℕ → ℕ → ℚ) (i start : ℕ) (vs : List ℚ) : ℕ → ℕ → ℚ :=
  fun r c =>
    if r = i ∧ start ≤ c ∧ c < start + vs.length then vs.getD (c - start) 0
    else m r c

/-- Python list slice `ts[a : a + len]` (clamped at the end of the
list, exactly as `List.drop`/`List.take` clamp). -/
def pySlice (ts : List ℚ) (a len : ℕ) : List ℚ := (ts.drop a).take len

/-- One iteration of the inner `while i < 256` loop (lines 83–90):
`data_matrix[i][k*T : k*T+T] = timestamp_list[(i+256*k)*T : (i+256*k)*T+T]`. -/
def innerStep (ts : List ℚ) (T k : ℕ) (m : ℕ → ℕ → ℚ) (i : ℕ) : ℕ → ℕ → ℚ :=
  writeRow m i (k * T) (pySlice ts ((i + 256 * k) * T) T)

/-- The inner `while i < 256` loop of cycle `k` (lines 82–90). -/
def innerPass (ts : List ℚ) (T k : ℕ) (m : ℕ → ℕ → ℚ) : ℕ → ℕ → ℚ :=
  (List.range 256).foldl (innerStep ts T k) m

/-- The full packing double loop (lines 80–91), run for `C` cycles
starting from the `np.zeros` matrix. -/
def packMatrix (ts : List ℚ) (T C : ℕ) : ℕ → ℕ → ℚ :=
  (List.range C).foldl (fun m k => innerPass ts T k m) initMatrix

lemma writeRow_ne {m : ℕ → ℕ → ℚ} {i start : ℕ} {vs : List ℚ} {r c : ℕ}
    (h : r ≠ i) : writeRow m i start vs r c = m r c := by
  simp [writeRow, h]

lemma writeRow_apply (m : ℕ → ℕ → ℚ) (i start : ℕ) (vs : List ℚ) (c : ℕ) :
    writeRow m i start vs i c =
      if start ≤ c ∧ c < start + vs.length then vs.getD (c - start) 0 else m i c := by
  simp [writeRow]

lemma pySlice_length (ts : List ℚ) (a len : ℕ) :
    (pySlice ts a len).length = min len (ts.length - a) := by
  simp [pySlice]

lemma pySlice_getD (ts : List ℚ) (a len s : ℕ) (hs : s < len) :
    (pySlice ts a len).getD s 0 = ts.getD (a + s) 0 := by
  unfold pySlice
  rw [List.getD_eq_getElem?_getD, List.getD_eq_getElem?_getD,
    List.getElem?_take_of_lt hs, List.getElem?_drop]

lemma inner_foldl_not_mem (ts : List ℚ) (T k : ℕ) (l : List ℕ)
    (m : ℕ → ℕ → ℚ) (r c : ℕ) (hr : r ∉ l) :
    (l.foldl (innerStep ts T k) m) r c = m r c := by
  induction l generalizing m with
  | nil => rfl
  | cons a l ih =>
    simp only [List.foldl_cons]
    rw [ih _ (fun h => hr (List.mem_cons_of_mem a h))]
    exact writeRow_ne (fun h => hr (h ▸ List.mem_cons_self a l))

lemma inner_foldl_mem (ts : List ℚ) (T k : ℕ) (l : List ℕ)
    (m : ℕ → ℕ → ℚ) (r c : ℕ) (hnd : l.Nodup) (hr : r ∈ l) :
    (l.foldl (innerStep ts T k) m) r c = innerStep ts T k m r r c := by
  induction l generalizing m with
  | nil => simp at hr
  | cons a l ih =>
    simp only [List.foldl_cons]
    rcases List.mem_cons.mp hr with rfl | hmem
    · rw [inner_foldl_not_mem ts T k l _ r c (List.nodup_cons.mp hnd).1]
    · have hra : r ≠ a := fun h => (List.nodup_cons.mp hnd).1 (h ▸ hmem)
      rw [ih _ (List.nodup_cons.mp hnd).2 hmem]
      show writeRow _ r _ _ r c = writeRow m r _ _ r c
      rw [writeRow_apply, writeRow_apply]
      split
      · rfl
      · exact writeRow_ne hra

lemma innerPass_apply (ts : List ℚ) (T k : ℕ) (m : ℕ → ℕ → ℚ) (r c : ℕ)
    (hr : r < 256) :
    innerPass ts T k m r c =
      if k * T ≤ c ∧ c < k * T + (pySlice ts ((r + 256 * k) * T) T).length
      then (pySlice ts ((r + 256 * k) * T) T).getD (c - k * T) 0
      else m r c := by
  unfold innerPass
  rw [inner_foldl_mem ts T k _ m r c (List.nodup_range 256) (List.mem_range.mpr hr)]
  exact writeRow_apply m r (k * T) _ c

lemma innerPass_row_ge (ts : List ℚ) (T k : ℕ) (m : ℕ → ℕ → ℚ) (r c : ℕ)
    (hr : 256 ≤ r) : innerPass ts T k m r c = m r c :=
  inner_foldl_not_mem ts T k _ m r c (fun h => absurd (List.mem_range.mp h) (by omega))

lemma innerPass_outside (ts : List ℚ) (T k : ℕ) (m : ℕ → ℕ → ℚ) (r c : ℕ)
    (hc : c < k * T ∨ k * T + T ≤ c) : innerPass ts T k m r c = m r c := by
  rcases Nat.lt_or_ge r 256 with hr | hr
  · rw [innerPass_apply ts T k m r c hr]
    have hlen : (pySlice ts ((r + 256 * k) * T) T).length ≤ T := by
      rw [pySlice_length]; omega
    rw [if_neg]
    omega
  · exact innerPass_row_ge ts T k m r c hr

lemma cycle_disjoint (T k a c : ℕ) (ha : a ≠ k)
    (h1 : k * T ≤ c) (h2 : c < k * T + T) :
    c < a * T ∨ a * T + T ≤ c := by
  rcases Nat.lt_or_ge a k with h | h
  · right
    calc a * T + T = (a + 1) * T := by ring
      _ ≤ k * T := Nat.mul_le_mul_right T h
      _ ≤ c := h1
  · left
    have hka : k < a := lt_of_le_of_ne h (fun e => ha e.symm)
    calc c < k * T + T := h2
      _ = (k + 1) * T := by ring
      _ ≤ a * T := Nat.mul_le_mul_right T hka

lemma outer_foldl_untouched (ts : List ℚ) (T : ℕ) (l : List ℕ)
    (m : ℕ → ℕ → ℚ) (r c : ℕ) (h : ∀ k ∈ l, c < k * T ∨ k * T + T ≤ c) :
    (l.foldl (fun m k => innerPass ts T k m) m) r c = m r c := by
  induction l generalizing m with
  | nil => rfl
  | cons a l ih =>
    simp only [List.foldl_cons]
    rw [ih _ (fun k hk => h k (List.mem_cons_of_mem a hk))]
    exact innerPass_outside ts T a m r c (h a (List.mem_cons_self a l))

lemma outer_foldl_mem (ts : List ℚ) (T : ℕ) (l : List ℕ)
    (m : ℕ → ℕ → ℚ) (r c k : ℕ) (hnd : l.Nodup) (hk : k ∈ l)
    (hc1 : k * T ≤ c) (hc2 : c < k * T + T) :
    (l.foldl (fun m k => innerPass ts T k m) m) r c = innerPass ts T k m r c := by
  induction l generalizing m with
  | nil => simp at hk
  | cons a l ih =>
    simp only [List.foldl_cons]
    rcases List.mem_cons.mp hk with rfl | hmem
    · exact outer_foldl_untouched ts T l _ r c
        (fun q hq => cycle_disjoint T k q c
          (fun e => (List.nodup_cons.mp hnd).1 (e ▸ hq)) hc1 hc2)
    · have hak : a ≠ k := fun e => (List.nodup_cons.mp hnd).1 (e ▸ hmem)
      rw [ih _ (List.nodup_cons.mp hnd).2 hmem]
      rcases Nat.lt_or_ge r 256 with hr | hr
      · rw [innerPass_apply ts T k _ r c hr, innerPass_apply ts T k m r c hr]
        split
        · rfl
        · exact innerPass_outside ts T a m r c (cycle_disjoint T k a c hak hc1 hc2)
      · rw [innerPass_row_ge ts T k _ r c hr, innerPass_row_ge ts T k m r c hr]
        exact innerPass_outside ts T a m r c (cycle_disjoint T k a c hak hc1 hc2)

/-- Core index-mapping result for the explicit nested-index reshape:
for `ts.length = 256*T*C`, cycle `k < C`, pixel `i < 256`, slot `s < T`,
row `i`, column `k*T + s` of the packed matrix holds
`ts[(i + 256*k)*T + s]`. -/
lemma packMatrix_spec (ts : List ℚ) (T C : ℕ) (hlen : ts.length = 256 * T * C)
    (i k s : ℕ) (hi : i < 256) (hk : k < C) (hs : s < T) :
    packMatrix ts T C i (k * T + s) = ts.getD ((i + 256 * k) * T + s) 0 := by
  unfold packMatrix
  rw [outer_foldl_mem ts T (List.range C) initMatrix i (k * T + s) k
    (List.nodup_range C) (List.mem_range.mpr hk) (Nat.le_add_right _ _) (by omega)]
  rw [innerPass_apply ts T k initMatrix i (k * T + s) hi]
  have hslice : (pySlice ts ((i + 256 * k) * T) T).length = T := by
    rw [pySlice_length, hlen]
    have h1 : (i + 256 * k) + 1 ≤ 256 * C := by omega
    have h2 : (i + 256 * k) * T + T ≤ 256 * T * C := by
      calc (i + 256 * k) * T + T = ((i + 256 * k) + 1) * T := by ring
        _ ≤ (256 * C) * T := Nat.mul_le_mul_right T h1
        _ = 256 * T * C := by ring
    omega
  rw [hslice, if_pos ⟨Nat.le_add_right _ _, by omega⟩]
  have hsub : k * T + s - k * T = s := by omega
  rw [hsub, pySlice_getD ts _ T s hs]

/-- C2: for a flat decoded sequence of length `256*T*C`, the
nested-index reshaper places, for every cycle `k < C`, pixel `i < 256`
and slot `s < T`, the flat value at offset `(i + 256*k)*T + s` into row
`i`, column `k*T + s` of the 256 × (T*C) output matrix. -/
theorem C2_cycle_reshaper (ts : List ℚ) (T C : ℕ)
    (hlen : ts.length = 256 * T * C)
    (i k s : ℕ) (hi : i < 256) (hk : k < C) (hs : s < T) :
    packMatrix ts T C i (k * T + s) = ts.getD ((i + 256 * k) * T + s) 0 :=
  packMatrix_spec ts T C hlen i k s hi hk hs

/-- Witness for C2: a concrete sequence of length 512 = 256·1·2
(`T = 1`, `C = 2`), pixel 3, cycle 1, slot 0: the matrix cell (3, 1)
holds the flat value at offset (3 + 256)·1 = 259. -/
theorem C2_cycle_reshaper_witness :
    packMatrix (List.map (Nat.cast : ℕ → ℚ) (List.range 512)) 1 2 3 (1 * 1 + 0) = 259 := by
  rw [C2_cycle_reshaper (List.map (Nat.cast : ℕ → ℚ) (List.range 512)) 1 2
    (by rw [List.length_map, List.length_range]) 3 1 0
    (by norm_num) (by norm_num) (by norm_num)]
  rw [List.getD_eq_getElem?_getD, List.getElem?_map,
    List.getElem?_range (by norm_num : (3 + 256 * 1) * 1 + 0 < 512)]
  norm_num

/-! ## CycleReshaper: dimension-transpose implementation (lines 95–107)

NumPy reshape in Fortran order reads the source in Fortran
(first-index-fastest) order and fills the destination in Fortran order;
arrays are modelled as index functions together with the Fortran-order
flattening that the reshape semantics is defined through. -/

/-- Fortran-order 2-D view of a flat vector, leading dimension `d0`:
entry `(a, b)` is flat element `a + d0 * b`. -/
def reshapeF2 (flat : ℕ → ℚ) (d0 : ℕ) : ℕ → ℕ → ℚ := fun a b => flat (a + d0 * b)

/-- Fortran-order flattening of a 2-D array with leading dimension `d0`. -/
def flattenF2 (A : ℕ → ℕ → ℚ) (d0 : ℕ) : ℕ → ℚ := fun p => A (p % d0) (p / d0)

/-- Fortran-order 3-D view with leading dimensions `(d0, d1, ·)`. -/
def reshapeF3 (flat : ℕ → ℚ) (d0 d1 : ℕ) : ℕ → ℕ → ℕ → ℚ :=
  fun a b c => flat (a + d0 * b + d0 * d1 * c)

/-- Fortran-order flattening of a 3-D array with leading dimensions
`(d0, d1, ·)`. -/
def flattenF3 (A : ℕ → ℕ → ℕ → ℚ) (d0 d1 : ℕ) : ℕ → ℚ :=
  fun p => A (p % d0) (p / d0 % d1) (p / d0 / d1)

/-- Axis permutation transpose((0, 2, 1)) of line 103. -/
def transpose021 (A : ℕ → ℕ → ℕ → ℚ) : ℕ → ℕ → ℕ → ℚ := fun a c b => A a b c

/-- Plain transpose() on a 2-D array (line 105). -/
def transpose2 (A : ℕ → ℕ → ℚ) : ℕ → ℕ → ℚ := fun i j => A j i

/-- The reshape chain of `unpack_numpy` (lines 100–106):
reshape to (T, C*256) in Fortran order, then to (T, 256, -1) in
Fortran order, transpose axes (0, 2, 1), reshape to (-1, 256) in
Fortran order, and transpose. -/
def unpackNumpyReshape (flat : ℕ → ℚ) (T C : ℕ) : ℕ → ℕ → ℚ :=
  transpose2
    (reshapeF2
      (flattenF3
        (transpose021 (reshapeF3 (flattenF2 (reshapeF2 flat T) T) T 256))
        T C)
      (T * C))

lemma flattenF2_reshapeF2 (flat : ℕ → ℚ) (d0 : ℕ) :
    flattenF2 (reshapeF2 flat d0) d0 = flat := by
  funext p
  unfold flattenF2 reshapeF2
  rw [Nat.mod_add_div]

lemma unpackNumpyReshape_spec (flat : ℕ → ℚ) (T C i k s : ℕ)
    (hk : k < C) (hs : s < T) :
    unpackNumpyReshape flat T C i (k * T + s) = flat ((i + 256 * k) * T + s) := by
  have hT : 0 < T := lt_of_le_of_lt (Nat.zero_le s) hs
  have hC : 0 < C := lt_of_le_of_lt (Nat.zero_le k) hk
  unfold unpackNumpyReshape
  rw [flattenF2_reshapeF2]
  simp only [transpose2, reshapeF2, flattenF3, transpose021, reshapeF3]
  have h1 : k * T + s + T * C * i = s + T * (k + C * i) := by ring
  rw [h1, Nat.add_mul_mod_self_left, Nat.mod_eq_of_lt hs,
    Nat.add_mul_div_left _ _ hT, Nat.div_eq_of_lt hs, Nat.zero_add,
    Nat.add_mul_mod_self_left, Nat.mod_eq_of_lt hk,
    Nat.add_mul_div_left _ _ hC, Nat.div_eq_of_lt hk, Nat.zero_add]
  congr 1
  ring

lemma numpyDecode_length (ws : List ℕ) : (numpyDecode ws).length = ws.length :=
  List.length_map ws numpyDecodeWord

lemma numpyDecode_getD (ws : List ℕ) (n : ℕ) (hn : n < ws.length) :
    (numpyDecode ws).getD n 0 = numpyDecodeWord (ws.getD n 0) := by
  unfold numpyDecode
  rw [List.getD_eq_getElem?_getD, List.getElem?_map, List.getElem?_eq_getElem hn,
    List.getD_eq_getElem?_getD, List.getElem?_eq_getElem hn]
  rfl

lemma cycles_eq (T C N : ℕ) (hT : 0 < T) (hN : N = 256 * T * C) :
    N / T / 256 = C := by
  subst hN
  have h1 : 256 * T * C = T * (256 * C) := by ring
  rw [h1, Nat.mul_div_cancel_left _ hT,
    Nat.mul_div_cancel_left C (by norm_num : (0 : ℕ) < 256)]

/-- The full `unpack_binary_flex` pipeline (decode loop, then the
explicit nested-index packing with `noc = len / lines_of_data / 256`
cycles), as the resulting matrix. -/
def unpack_binary_flex_matrix (ws : List ℕ) (T : ℕ) : ℕ → ℕ → ℚ :=
  packMatrix (decodeLoop ws) T ((decodeLoop ws).length / T / 256)

/-- The full `unpack_numpy` pipeline (vectorised decode, then the
Fortran-order reshape chain with `nmrCycles = int(len/T/256)`). -/
def unpack_numpy_matrix (ws : List ℕ) (T : ℕ) : ℕ → ℕ → ℚ :=
  unpackNumpyReshape (fun p => (numpyDecode ws).getD p 0) T
    ((numpyDecode ws).length / T / 256)

lemma flat_index_lt (i k s T C : ℕ) (hi : i < 256) (hk : k < C) (hs : s < T) :
    (i + 256 * k) * T + s < 256 * T * C := by
  have h1 : (i + 256 * k) + 1 ≤ 256 * C := by omega
  calc (i + 256 * k) * T + s < (i + 256 * k) * T + T := by omega
    _ = ((i + 256 * k) + 1) * T := by ring
    _ ≤ (256 * C) * T := Nat.mul_le_mul_right T h1
    _ = 256 * T * C := by ring

/-- C4: on any word stream whose length is `256 * T * C`, the explicit
nested-index reshape of `unpack_binary_flex` and the dimension-transpose
reshape of `unpack_numpy` produce identical matrices, cell by cell. -/
theorem C4_reshape_equivalence (ws : List ℕ) (T C : ℕ) (hT : 0 < T)
    (hw : ∀ w ∈ ws, w < 2 ^ 32) (hlen : ws.length = 256 * T * C)
    (i j : ℕ) (hi : i < 256) (hj : j < T * C) :
    unpack_binary_flex_matrix ws T i j = unpack_numpy_matrix ws T i j := by
  have hC : 0 < C := by
    rcases Nat.eq_zero_or_pos C with h | h
    · subst h; omega
    · exact h
  have hdl : (decodeLoop ws).length = 256 * T * C := by
    rw [decodeLoop_length]; exact hlen
  have hnl : (numpyDecode ws).length = 256 * T * C := by
    rw [numpyDecode_length]; exact hlen
  have hs : j % T < T := Nat.mod_lt j hT
  have hk : j / T < C := by
    rw [Nat.div_lt_iff_lt_mul hT]
    calc j < T * C := hj
      _ = C * T := Nat.mul_comm T C
  have hrepr : j = (j / T) * T + j % T := by
    conv_lhs => rw [← Nat.div_add_mod j T]
    ring
  have hidx : (i + 256 * (j / T)) * T + j % T < ws.length := by
    rw [hlen]; exact flat_index_lt i (j / T) (j % T) T C hi hk hs
  unfold unpack_binary_flex_matrix unpack_numpy_matrix
  rw [hdl, hnl, cycles_eq T C (256 * T * C) hT rfl, hrepr]
  rw [packMatrix_spec (decodeLoop ws) T C hdl i (j / T) (j % T) hi hk hs]
  rw [unpackNumpyReshape_spec _ T C i (j / T) (j % T) hk hs]
  rw [decodeLoop_getD ws _ hidx, numpyDecode_getD ws _ hidx]
  exact decodeWord_eq_numpyDecodeWord _ (hw _ (by
    rw [List.getD_eq_getElem?_getD, List.getElem?_eq_getElem hidx]
    exact List.getElem_mem hidx))

/-- Witness for C4: a 256-word all-zero stream with `T = 1`, `C = 1`;
both implementations give the same cell (0, 0). -/
theorem C4_reshape_equivalence_witness :
    unpack_binary_flex_matrix (List.replicate 256 0) 1 0 0 =
      unpack_numpy_matrix (List.replicate 256 0) 1 0 0 :=
  C4_reshape_equivalence (List.replicate 256 0) 1 1 (by norm_num)
    (fun w hw => by rw [List.eq_of_mem_replicate hw]; norm_num)
    (by rw [List.length_replicate]) 0 0 (by norm_num) (by norm_num)

/-! ## CalibrationCorrector (lines 110–163) -/

/-- Truncation toward zero: the cast NumPy applies when a float64
expression is assigned back into an `np.longlong` array, as on
lines 160–162 where the float correction result is written into the
integer matrix `data_matrix`. -/
def truncQ (q : ℚ) : ℤ := if 0 ≤ q then ⌊q⌋ else ⌈q⌉

/-- The correction loop of `unpack_calib` (lines 158–162): for each row
`i` in `range(256)` and each column where the stored value `v` is
`≥ 0`, the entry becomes `(v - v % 140) * 17.857 + cal_mat[i, v % 140]`,
truncated toward zero by the store into the longlong matrix; all other
entries are untouched. -/
def applyCalib (cal : ℕ → ℕ → ℚ) (m : ℕ → ℕ → ℤ) : ℕ → ℕ → ℤ := fun i j =>
  if i < 256 ∧ 0 ≤ m i j then
    truncQ (((m i j - m i j % 140 : ℤ) : ℚ) * binWidth + cal i (m i j % 140).toNat)
  else m i j

/-- Number of sentinel `-1` entries in the `nr × nc` region of a matrix. -/
def countSentinel (m : ℕ → ℕ → ℤ) (nr nc : ℕ) : ℕ :=
  ((List.range nr).map
    (fun i => ((List.range nc).filter (fun j => m i j = -1)).length)).sum

/-- The all-zero (identity) calibration table. -/
def zeroCal : ℕ → ℕ → ℚ := fun _ _ => 0

/-- A calibration table whose every offset is `-1` ps. -/
def negCal : ℕ → ℕ → ℚ := fun _ _ => -1

/-- A matrix whose every entry is the raw count `140`. -/
def m140 : ℕ → ℕ → ℤ := fun _ _ => 140

/-- A matrix whose every entry is the (valid) raw count `0`. -/
def mZero : ℕ → ℕ → ℤ := fun _ _ => 0

/-- C1 counterexample: with the zero calibration table, the spec formula
gives `(140 - 0) * 17.857 = 2499.98` ps for a raw count of 140, but the
code stores the integer 2499 — the fractional picoseconds are lost when
the float result is written back into the longlong matrix. -/
theorem C1_counterexample :
    applyCalib zeroCal m140 0 0 = 2499 ∧
    ((applyCalib zeroCal m140 0 0 : ℤ) : ℚ) ≠
      ((m140 0 0 - m140 0 0 % 140 : ℤ) : ℚ) * binWidth +
        zeroCal 0 ((m140 0 0 % 140).toNat) := by
  have hq : ((m140 0 0 - m140 0 0 % 140 : ℤ) : ℚ) * binWidth +
      zeroCal 0 ((m140 0 0 % 140).toNat) = 124999 / 50 := by
    simp only [m140, zeroCal, binWidth]
    norm_num
  have h : applyCalib zeroCal m140 0 0 = 2499 := by
    have h2 : applyCalib zeroCal m140 0 0 = truncQ (124999 / 50) := by
      simp only [applyCalib]
      rw [if_pos (⟨by norm_num, by norm_num [m140]⟩ :
        (0 : ℕ) < 256 ∧ (0 : ℤ) ≤ m140 0 0)]
      rw [hq]
    rw [h2]
    unfold truncQ
    rw [if_pos (by norm_num)]
    exact Int.floor_eq_iff.mpr ⟨by norm_num, by norm_num⟩
  refine ⟨h, ?_⟩
  rw [h, hq]
  norm_num

/-- C1 (amended): every entry `v ≥ 0` at row `i < 256` is replaced by
the truncation toward zero of
`(v - v % 140) * 17.857 + CalibrationTable[i][v % 140]` — the
real-valued formula is computed, but its fractional part is dropped by
the store into the integer matrix; when the formula value is
nonnegative the stored entry is its floor. -/
theorem C1_calibration_formula (cal : ℕ → ℕ → ℚ) (m : ℕ → ℕ → ℤ)
    (i j : ℕ) (hi : i < 256) (hv : 0 ≤ m i j) :
    applyCalib cal m i j =
      truncQ (((m i j - m i j % 140 : ℤ) : ℚ) * binWidth + cal i (m i j % 140).toNat) ∧
    (0 ≤ ((m i j - m i j % 140 : ℤ) : ℚ) * binWidth + cal i (m i j % 140).toNat →
      ((applyCalib cal m i j : ℤ) : ℚ) ≤
          ((m i j - m i j % 140 : ℤ) : ℚ) * binWidth + cal i (m i j % 140).toNat ∧
        ((m i j - m i j % 140 : ℤ) : ℚ) * binWidth + cal i (m i j % 140).toNat <
          ((applyCalib cal m i j : ℤ) : ℚ) + 1) := by
  have happ : applyCalib cal m i j =
      truncQ (((m i j - m i j % 140 : ℤ) : ℚ) * binWidth + cal i (m i j % 140).toNat) := by
    unfold applyCalib
    rw [if_pos ⟨hi, hv⟩]
  refine ⟨happ, fun hq => ?_⟩
  rw [happ]
  unfold truncQ
  rw [if_pos hq]
  exact ⟨Int.floor_le _, by push_cast; exact Int.lt_floor_add_one _⟩

/-- Witness for the amended C1 at the concrete input of the
counterexample: raw count 140, zero table. -/
theorem C1_calibration_formula_witness :
    applyCalib zeroCal m140 0 0 =
      truncQ (((m140 0 0 - m140 0 0 % 140 : ℤ) : ℚ) * binWidth +
        zeroCal 0 ((m140 0 0 % 140).toNat)) :=
  (C1_calibration_formula zeroCal m140 0 0 (by decide) (by decide)).1

lemma truncQ_intCast (z : ℤ) : truncQ (z : ℚ) = z := by
  unfold truncQ
  split
  · exact Int.floor_intCast z
  · exact Int.ceil_intCast z

lemma coarse_nonneg (v : ℤ) (hv : 0 ≤ v) : 0 ≤ v - v % 140 := by
  have h : v - v % 140 = 140 * (v / 140) := by
    rw [Int.emod_def]; ring
  rw [h]
  exact mul_nonneg (by norm_num) (Int.ediv_nonneg hv (by norm_num))

lemma corrected_nonneg (cal : ℕ → ℕ → ℚ) (m : ℕ → ℕ → ℤ) (i j : ℕ)
    (hv : 0 ≤ m i j) (hc : 0 ≤ cal i (m i j % 140).toNat) :
    0 ≤ ((m i j - m i j % 140 : ℤ) : ℚ) * binWidth + cal i (m i j % 140).toNat := by
  apply add_nonneg _ hc
  apply mul_nonneg _ (by norm_num [binWidth])
  exact_mod_cast coarse_nonneg (m i j) hv

lemma countSentinel_congr (f g : ℕ → ℕ → ℤ) (nr nc : ℕ)
    (h : ∀ i, i < nr → ∀ j, (f i j = -1 ↔ g i j = -1)) :
    countSentinel f nr nc = countSentinel g nr nc := by
  unfold countSentinel
  congr 1
  apply List.map_congr_left
  intro i hi
  congr 1
  apply List.filter_congr
  intro j _
  exact decide_eq_decide.mpr (h i (List.mem_range.mp hi) j)

/-- C5 counterexample: with every calibration offset `-1` and an
all-zero (valid) input matrix, every corrected entry becomes
`trunc(0 * 17.857 + (-1)) = -1`: the 256-row × 1-column region has no
`-1` entries before correction and 256 after, so the count changes. -/
theorem C5_counterexample :
    countSentinel mZero 256 1 = 0 ∧
    countSentinel (applyCalib negCal mZero) 256 1 = 256 := by
  have happ : ∀ i j : ℕ, i < 256 → applyCalib negCal mZero i j = -1 := by
    intro i j hi
    have hq : ((mZero i j - mZero i j % 140 : ℤ) : ℚ) * binWidth +
        negCal i ((mZero i j % 140).toNat) = ((-1 : ℤ) : ℚ) := by
      simp only [mZero, negCal, binWidth]
      norm_num
    simp only [applyCalib]
    rw [if_pos (⟨hi, le_refl 0⟩ : i < 256 ∧ (0 : ℤ) ≤ mZero i j), hq, truncQ_intCast]
  constructor
  · set_option maxRecDepth 4000 in decide
  · have h2 : countSentinel (applyCalib negCal mZero) 256 1 =
        countSentinel (fun _ _ => (-1 : ℤ)) 256 1 :=
      countSentinel_congr _ _ 256 1 (fun i hi j => by rw [happ i j hi])
    rw [h2]
    set_option maxRecDepth 4000 in decide

lemma countSentinel_le (f g : ℕ → ℕ → ℤ) (nr nc : ℕ)
    (h : ∀ i, i < nr → ∀ j, f i j = -1 → g i j = -1) :
    countSentinel f nr nc ≤ countSentinel g nr nc := by
  unfold countSentinel
  apply List.sum_le_sum
  intro i hi
  rw [← List.countP_eq_length_filter, ← List.countP_eq_length_filter]
  apply List.countP_mono_left
  intro j _ hj
  exact decide_eq_true (h i (List.mem_range.mp hi) j (of_decide_eq_true hj))

/-- C5 (amended): the correction never touches a `-1` entry (the guard
`v ≥ 0` excludes it from the modulo/correction arithmetic, for any
calibration table), so the count of `-1` entries never decreases; and
when every calibration offset is nonnegative — so no corrected value
can itself land on `-1` — the count of `-1` entries is exactly
preserved. -/
theorem C5_sentinel_preserved (cal : ℕ → ℕ → ℚ) (m : ℕ → ℕ → ℤ) (nc : ℕ) :
    (∀ i j, m i j = -1 → applyCalib cal m i j = -1) ∧
    countSentinel m 256 nc ≤ countSentinel (applyCalib cal m) 256 nc ∧
    ((∀ i b, 0 ≤ cal i b) →
      countSentinel (applyCalib cal m) 256 nc = countSentinel m 256 nc) := by
  have huntouched : ∀ i j, m i j = -1 → applyCalib cal m i j = -1 := by
    intro i j h
    unfold applyCalib
    rw [if_neg (fun hc => by rw [h] at hc; omega), h]
  refine ⟨huntouched,
    countSentinel_le m (applyCalib cal m) 256 nc (fun i _ j => huntouched i j),
    fun hcal => countSentinel_congr _ _ 256 nc fun i _ j => ?_⟩
  by_cases hv : 0 ≤ m i j
  · by_cases hi : i < 256
    · have happ : applyCalib cal m i j =
          truncQ (((m i j - m i j % 140 : ℤ) : ℚ) * binWidth + cal i (m i j % 140).toNat) := by
        unfold applyCalib
        rw [if_pos ⟨hi, hv⟩]
      have hq := corrected_nonneg cal m i j hv (hcal i _)
      have hfl : 0 ≤ applyCalib cal m i j := by
        rw [happ]
        unfold truncQ
        rw [if_pos hq]
        exact Int.floor_nonneg.mpr hq
      constructor
      · intro h; rw [h] at hfl; omega
      · intro h; rw [h] at hv; omega
    · unfold applyCalib
      rw [if_neg (fun hc => hi hc.1)]
  · unfold applyCalib
    rw [if_neg (fun hc => hv hc.2)]

/-- Witness for the amended C5 at concrete inputs: with the all-`-1`
table the sentinel count does not decrease, and with the zero table
(nonnegative offsets) it is exactly preserved. -/
theorem C5_sentinel_preserved_witness :
    countSentinel mZero 256 1 ≤ countSentinel (applyCalib negCal mZero) 256 1 ∧
    countSentinel (applyCalib zeroCal mZero) 256 1 = countSentinel mZero 256 1 :=
  ⟨(C5_sentinel_preserved negCal mZero 1).2.1,
   (C5_sentinel_preserved zeroCal mZero 1).2.2 (fun _ _ => le_refl 0)⟩

/-! ## Calibration loading and the exit-on-failure path (lines 148–157) -/

/-- Outcome of running `unpack_calib` past the calibration-loading
`try/except` (lines 150–157): if `calibrate_load` raises
`FileNotFoundError`, the code prints a message and calls `sys.exit()` —
modelled as `exitProcess`; otherwise execution continues and the
corrected matrix is produced. -/
inductive CalibOutcome (α : Type) where
  | exitProcess : CalibOutcome α
  | result : α → CalibOutcome α

/-- Lines 150–163 of `unpack_calib`, from the `calibrate_load` call to
the return.  The loader itself lives outside the decode core
(`tools/calibrate.py`, an external collaborator per the spec), so it is
an injected input: `none` models the `FileNotFoundError` case, `some
cal` a successfully loaded table. -/
def unpack_calib_load (loader : Option (ℕ → ℕ → ℚ)) (m : ℕ → ℕ → ℤ) :
    CalibOutcome (ℕ → ℕ → ℤ) :=
  match loader with
  | none => CalibOutcome.exitProcess
  | some cal => CalibOutcome.result (applyCalib cal m)

/-- C8 counterexample: when no calibration table can be loaded, the
code reaches `sys.exit()` — it terminates the process instead of
reporting a recoverable condition to the caller. -/
theorem C8_counterexample :
    unpack_calib_load none mZero = CalibOutcome.exitProcess := rfl

/-- C8 (amended): a missing calibration table makes `unpack_calib`
print a message and terminate the process via `sys.exit()`; it never
falls back to returning uncorrected data, and with a loaded table it
returns exactly the corrected matrix. -/
theorem C8_calibration_exit (loader : Option (ℕ → ℕ → ℚ)) (m : ℕ → ℕ → ℤ) :
    (loader = none → unpack_calib_load loader m = CalibOutcome.exitProcess) ∧
    (∀ cal, loader = some cal →
      unpack_calib_load loader m = CalibOutcome.result (applyCalib cal m)) := by
  constructor
  · intro h; subst h; rfl
  · intro cal h; subst h; rfl

/-- Witness for the amended C8 with a present (zero) table and the
missing-table case. -/
theorem C8_calibration_exit_witness :
    unpack_calib_load (some zeroCal) mZero =
      CalibOutcome.result (applyCalib zeroCal mZero) ∧
    unpack_calib_load none m140 = CalibOutcome.exitProcess :=
  ⟨(C8_calibration_exit (some zeroCal) mZero).2 zeroCal rfl,
   (C8_calibration_exit none m140).1 rfl⟩

/-! ## The cycle-loop bound `noc` of `unpack_binary_flex` (lines 76–91) -/

/-- The bound noc = len(timestamp_list) / lines_of_data / 256 of
line 76: Python
true division, a real number — fractional whenever the word count is
not a multiple of `256 * lines_of_data`. -/
def nocQ (N T : ℕ) : ℚ := (N : ℚ) / T / 256

/-- The outer `k = 0; while k != noc: ...; k = k + 1` loop (lines
80–91), abstracted to its counter: `fuel` bounds the number of observed
iterations; `some k0` means the guard `k != noc` became false at
counter value `k0`, `none` that the guard was still true when the fuel
ran out. -/
def flexLoop (noc : ℚ) : ℕ → ℕ → Option ℕ
  | 0, k => if (k : ℚ) = noc then some k else none
  | fuel + 1, k => if (k : ℚ) = noc then some k else flexLoop noc fuel (k + 1)

lemma nocQ_int_iff (N T : ℕ) (hT : 0 < T) (k : ℕ) :
    (k : ℚ) = nocQ N T ↔ N = 256 * T * k := by
  unfold nocQ
  rw [div_div, eq_div_iff (by positivity)]
  constructor
  · intro h
    have h2 : (N : ℚ) = ((256 * T * k : ℕ) : ℚ) := by push_cast; rw [← h]; ring
    exact_mod_cast h2
  · intro h
    subst h
    push_cast
    ring

lemma flexLoop_none (q : ℚ) (h : ∀ k : ℕ, (k : ℚ) ≠ q) :
    ∀ fuel k, flexLoop q fuel k = none := by
  intro fuel
  induction fuel with
  | zero => intro k; simp [flexLoop, h k]
  | succ n ih => intro k; simp [flexLoop, h k, ih (k + 1)]

lemma flexLoop_terminates (C : ℕ) :
    ∀ d k, k + d = C → flexLoop (C : ℚ) d k = some C := by
  intro d
  induction d with
  | zero =>
    intro k hk
    have hkC : k = C := by omega
    subst hkC
    simp [flexLoop]
  | succ n ih =>
    intro k hk
    have hkC : k ≠ C := by omega
    have hq : ((k : ℚ)) ≠ (C : ℚ) := fun he => hkC (by exact_mod_cast he)
    simp only [flexLoop, if_neg hq]
    exact ih (k + 1) (by omega)

/-- C10: with `noc = N / T / 256`, the `while k != noc` loop
terminates (after exactly `N / (256*T)` iterations) whenever the word
count `N` is a multiple of `256 * T`; otherwise `noc` is non-integral
and the exit condition `k == noc` is never satisfied, at any counter
value and for any number of iterations. -/
theorem C10_loop_termination (N T : ℕ) (hT : 0 < T) :
    (256 * T ∣ N →
      flexLoop (nocQ N T) (N / (256 * T)) 0 = some (N / (256 * T))) ∧
    (¬ 256 * T ∣ N → ∀ fuel k, flexLoop (nocQ N T) fuel k = none) := by
  constructor
  · rintro ⟨C, hC⟩
    have hq : nocQ N T = (C : ℚ) := ((nocQ_int_iff N T hT C).mpr hC).symm
    have hdiv : N / (256 * T) = C := by
      subst hC
      exact Nat.mul_div_cancel_left C (by positivity)
    rw [hq, hdiv]
    exact flexLoop_terminates C C 0 (by omega)
  · intro hnd fuel k
    exact flexLoop_none _ (fun q hq => hnd ⟨q, (nocQ_int_iff N T hT q).mp hq⟩) fuel k

/-- Witness for C10: `N = 512`, `T = 2` (one cycle); the loop exits at
`k = 1` after one iteration. -/
theorem C10_loop_termination_witness :
    flexLoop (nocQ 512 2) (512 / (256 * 2)) 0 = some (512 / (256 * 2)) :=
  (C10_loop_termination 512 2 (by norm_num)).1 ⟨1, by norm_num⟩

/-! ## `unpack_calib` geometry: `cycles` and the reshape size check
(lines 139–145) -/

/-- C-order 3-D view with trailing dimensions `(d1, d2)` (last index
fastest): entry `(a, b, c)` is flat element `c + d2*b + d2*d1*a`. -/
def reshapeC3 (flat : ℕ → ℤ) (d1 d2 : ℕ) : ℕ → ℕ → ℕ → ℤ :=
  fun a b c => flat (c + d2 * b + d2 * d1 * a)

/-- Axis permutation transpose((1, 0, 2)) of line 143. -/
def transpose102 (A : ℕ → ℕ → ℕ → ℤ) : ℕ → ℕ → ℕ → ℤ := fun b a c => A a b c

/-- C-order flattening of a 3-D array with trailing dimensions
`(d1, d2)`. -/
def flattenC3 (A : ℕ → ℕ → ℕ → ℤ) (d1 d2 : ℕ) : ℕ → ℤ :=
  fun p => A (p / (d1 * d2)) (p / d2 % d1) (p % d2)

/-- The (C-order) reshape chain of `unpack_calib` (lines 141–145):
`data.reshape(cycles, 256, timestamps).transpose((1, 0, 2))
.reshape(256, timestamps*cycles)`, as a cell accessor. -/
def unpackCalibMat (data : List ℤ) (T cycles : ℕ) : ℕ → ℕ → ℤ :=
  fun i m =>
    flattenC3 (transpose102 (reshapeC3 (fun p => data.getD p 0) 256 T)) cycles T
      (m + T * cycles * i)

/-- Lines 139–145 of `unpack_calib` with the NumPy reshape size check:
`cycles = int(len(data) / timestamps / 256)`, and
`data.reshape(cycles, 256, timestamps)` raises `ValueError` (modelled
`none`) unless the array has exactly `cycles * 256 * timestamps`
elements. -/
def unpackCalibReshape (data : List ℤ) (T : ℕ) : Option (ℕ → ℕ → ℤ) :=
  if data.length = (data.length / T / 256) * 256 * T
  then some (unpackCalibMat data T (data.length / T / 256))
  else none

lemma unpackCalibReshape_none (data : List ℤ) (T : ℕ)
    (h : ¬ 256 * T ∣ data.length) : unpackCalibReshape data T = none := by
  unfold unpackCalibReshape
  rw [if_neg]
  intro he
  refine h ⟨data.length / T / 256, ?_⟩
  calc data.length = data.length / T / 256 * 256 * T := he
    _ = 256 * T * (data.length / T / 256) := by ring

/-- C6 counterexample: for a 128-word stream with `T = 1` (word count
not a multiple of 256), the flex loop exit condition `k == noc` is
unsatisfiable — `unpack_binary_flex` performs no geometry check and
never completes its packing loop normally, rather than failing with a
dedicated geometry error — while the reshape in `unpack_calib` does fail. -/
theorem C6_counterexample :
    (¬ ∃ C : ℕ, (C : ℚ) = nocQ 128 1) ∧
    unpackCalibReshape (List.replicate 128 0) 1 = none := by
  constructor
  · rintro ⟨C, hC⟩
    have h := (nocQ_int_iff 128 1 (by norm_num) C).mp hC
    omega
  · exact unpackCalibReshape_none _ 1 (by rw [List.length_replicate]; decide)

/-- C6 (amended): when the decoded word count is not a multiple of
`256 * T`, `unpack_calib` fails at the NumPy reshape size check and
returns no (truncated or padded) result; `unpack_binary_flex` has no
explicit geometry check — its packing-loop exit condition is never
satisfied, so it too never returns a partial or padded matrix, but it
does not raise a dedicated geometry error either. -/
theorem C6_geometry_failure (data : List ℤ) (T : ℕ) (hT : 0 < T)
    (hnd : ¬ 256 * T ∣ data.length) :
    unpackCalibReshape data T = none ∧
    ∀ fuel k, flexLoop (nocQ data.length T) fuel k = none :=
  ⟨unpackCalibReshape_none data T hnd,
   flexLoop_none _ (fun k hk => hnd ⟨k, (nocQ_int_iff _ T hT k).mp hk⟩)⟩

/-- Witness for the amended C6 at a 384-element array with `T = 1`. -/
theorem C6_geometry_failure_witness :
    unpackCalibReshape (List.replicate 384 0) 1 = none ∧
    flexLoop (nocQ (List.replicate 384 (0 : ℤ)).length 1) 5 0 = none := by
  have h := C6_geometry_failure (List.replicate 384 0) 1 (by norm_num)
    (by rw [List.length_replicate]; decide)
  exact ⟨h.1, h.2 5 0⟩

/-! ## Matrix initialization (line 74) and partial-word handling -/

/-- C9 counterexample: the matrix allocated by `np.zeros` on line 74
starts with every cell equal to `0`, not the sentinel `-1`. -/
theorem C9_counterexample : initMatrix 0 0 ≠ -1 := by
  unfold initMatrix
  norm_num

/-- C9 (amended): the output matrix of the reshaper is initialized to `0`
(`np.zeros`), not to the sentinel `-1`; under the divisibility
precondition every cell of the 256 × (T·C) matrix is overwritten by
the copy loop, so the initial default never survives into the result. -/
theorem C9_matrix_initialization (ts : List ℚ) (T C : ℕ) (hT : 0 < T)
    (hlen : ts.length = 256 * T * C) :
    (∀ r c, initMatrix r c = 0) ∧
    ∀ i j, i < 256 → j < T * C →
      packMatrix ts T C i j = ts.getD ((i + 256 * (j / T)) * T + j % T) 0 := by
  refine ⟨fun r c => rfl, fun i j hi hj => ?_⟩
  have hs : j % T < T := Nat.mod_lt j hT
  have hk : j / T < C := by
    rw [Nat.div_lt_iff_lt_mul hT]
    calc j < T * C := hj
      _ = C * T := Nat.mul_comm T C
  have hrepr : j = (j / T) * T + j % T := by
    conv_lhs => rw [← Nat.div_add_mod j T]
    ring
  obtain ⟨k, s, rfl, hk, hs⟩ : ∃ k s, j = k * T + s ∧ k < C ∧ s < T :=
    ⟨j / T, j % T, hrepr, hk, hs⟩
  have hdiv : (k * T + s) / T = k := by
    rw [(by ring : k * T + s = s + T * k), Nat.add_mul_div_left _ _ hT,
      Nat.div_eq_of_lt hs, Nat.zero_add]
  have hmod : (k * T + s) % T = s := by
    rw [(by ring : k * T + s = s + T * k), Nat.add_mul_mod_self_left,
      Nat.mod_eq_of_lt hs]
  rw [hdiv, hmod]
  exact packMatrix_spec ts T C hlen i k s hi hk hs

/-- Witness for the amended C9: `T = 1`, `C = 1`, 256 zero timestamps. -/
theorem C9_matrix_initialization_witness :
    initMatrix 5 7 = 0 ∧
    packMatrix (List.replicate 256 (0 : ℚ)) 1 1 0 0 =
      (List.replicate 256 (0 : ℚ)).getD ((0 + 256 * (0 / 1)) * 1 + 0 % 1) 0 := by
  have h := C9_matrix_initialization (List.replicate 256 0) 1 1 (by norm_num)
    (by rw [List.length_replicate])
  exact ⟨h.1 5 7, h.2 0 0 (by norm_num) (by norm_num)⟩

/-- C7 counterexample: a 5-byte stream (length not a multiple of 4) is
not rejected by the `np.fromfile`-based decoders — the trailing byte is
silently dropped and one complete word is still returned. -/
theorem C7_counterexample :
    [1, 0, 0, 0, 9].length % 4 ≠ 0 ∧ fromfileWords [1, 0, 0, 0, 9] = [1] := by
  constructor
  · decide
  · rfl

/-- C7 (amended): on a byte stream whose length is not a multiple of 4,
the `struct`-based reader of `unpack_binary_flex` fails on the trailing
partial word, but the `np.fromfile`-based decoders of `unpack_numpy`
and `unpack_calib` silently keep exactly `len/4` words and drop the
tail; on well-formed streams the two readers agree. -/
theorem C7_partial_word (bs : List ℕ) :
    (bs.length % 4 ≠ 0 →
      readWords bs = none ∧
      (fromfileWords bs).length = bs.length / 4 ∧
      bs.length / 4 * 4 < bs.length) ∧
    (bs.length % 4 = 0 → readWords bs = some (fromfileWords bs)) := by
  constructor
  · intro h
    exact ⟨readWords_eq_none bs h, fromfileWords_length bs, by omega⟩
  · exact readWords_eq_some bs

/-- Witness for the amended C7 at a concrete 5-byte stream. -/
theorem C7_partial_word_witness :
    readWords [0, 0, 0, 0, 7] = none ∧ (fromfileWords [0, 0, 0, 0, 7]).length = 1 := by
  have h := (C7_partial_word [0, 0, 0, 0, 7]).1 (by decide)
  exact ⟨h.1, h.2.1⟩

end LinoSPAD2
